import Mathlib

/-!
Shallow embedding of the osm repository's catalog, action DAG, runtime,
store parsing and parquet-combine logic, with theorems settling the
frozen claims about them.

Machine integers (`usize`) are modelled as `Nat`; the `im::HashMap`
persistent maps are modelled as association lists (`alGet`/`alInsert`/
`alRemove`); fallible Rust code returning `Result` is modelled with
`Except`.
-/

deriving instance DecidableEq for Except

namespace Osm

/-! ## Path algebra (src/src/base.rs, src/src/path.rs) -/

inductive Protocol
  | file
  | s3
deriving DecidableEq

def Protocol.display : Protocol → String
  | .file => "file"
  | .s3 => "s3"

structure Bucket where
  protocol : Protocol
  name : String
deriving DecidableEq

def Bucket.display (b : Bucket) : String :=
  b.protocol.display ++ "://" ++ b.name

structure DatasetPath where
  bucket : Bucket
  path : String
deriving DecidableEq

def DatasetPath.display (d : DatasetPath) : String :=
  d.bucket.display ++ "/" ++ d.path

/-- Partition: an ordered sequence of (key, value) pairs (src/src/base.rs). -/
structure Partition where
  values : List (String × String)
deriving DecidableEq

def Partition.display (p : Partition) : String :=
  String.join (p.values.map (fun kv => kv.1 ++ "=" ++ kv.2))

structure PartitionPath where
  dataset : DatasetPath
  partition : Partition
deriving DecidableEq

def PartitionPath.display (p : PartitionPath) : String :=
  p.dataset.display ++ "/" ++ p.partition.display

structure ObjectKey where
  str : String
deriving DecidableEq

structure ObjectPath where
  partition : PartitionPath
  key : ObjectKey
deriving DecidableEq

def DatasetPath.partition_path (d : DatasetPath) (p : Partition) : PartitionPath :=
  ⟨d, p⟩

def PartitionPath.object_path (pp : PartitionPath) (k : ObjectKey) : ObjectPath :=
  ⟨pp, k⟩

def ObjectPath.dataset_path (o : ObjectPath) : DatasetPath :=
  o.partition.dataset

def ObjectPath.partition_path (o : ObjectPath) : PartitionPath :=
  o.partition

def ObjectPath.get_partition (o : ObjectPath) : Partition :=
  o.partition.partition

def ObjectPath.update_partition (o : ObjectPath) (p : Partition) : ObjectPath :=
  ⟨⟨o.partition.dataset, p⟩, o.key⟩

def ObjectPath.display (o : ObjectPath) : String :=
  o.partition.display ++ "/" ++ o.key.str

/-! ## Format inference (src/src/base.rs `ObjectKey::extension`) -/

inductive Format
  | csv
  | parquet
deriving DecidableEq

def Format.display : Format → String
  | .csv => "csv"
  | .parquet => "parquet"

/-- Character-level model of Rust's `str::split(c)`, which keeps empty
pieces: `splitCh '.' "a.csv.bak" = ["a", "csv", "bak"]` and
`splitCh '.' "" = [""]`. -/
def splitCh (c : Char) : List Char → List (List Char)
  | [] => [[]]
  | x :: xs =>
    match splitCh c xs with
    | [] => [[]]
    | y :: ys => if x = c then [] :: y :: ys else (x :: y) :: ys

/-- `ObjectKey::extension` (src/src/base.rs line 47): element 1 of the
key split on every dot, i.e. the component between the first and the
second dot. -/
def ObjectKey.extension (k : ObjectKey) : Option (List Char) :=
  (splitCh '.' k.str.toList)[1]?

/-- Modelled from the spec: `ObjectPath::infer_format` is called from
src/src/store.rs and src/src/action.rs but its body is not under src/.
The spec (sections 3 and 6) maps extension "csv" to CSV and "parquet"
to Parquet and anything else to unknown; the extension value itself is
`ObjectKey::extension` from src/src/base.rs. -/
def ObjectKey.infer_format (k : ObjectKey) : Option Format :=
  match k.extension with
  | some ext =>
    if ext = "csv".toList then some .csv
    else if ext = "parquet".toList then some .parquet
    else none
  | none => none

def ObjectPath.infer_format (o : ObjectPath) : Option Format :=
  o.key.infer_format

/-! ## Errors (src/src/state.rs, src/src/store.rs) -/

inductive StateError
  | missingDataset (p : DatasetPath)
  | missingPartition (p : Partition)
  | missingObject (k : ObjectKey)
deriving DecidableEq

inductive RebalanceTarget
  | rows (n : Nat)
  | size (b : Nat)
deriving DecidableEq

inductive StoreError
  | io (msg : String)
  | parquetCodec (msg : String)
  | cannotInferSchema (p : ObjectPath)
  | cannotCombineFormatAndTarget (f : Format) (t : RebalanceTarget)
  | invalidPartition (name : String)
deriving DecidableEq

/-- Union error type standing in for `anyhow::Error`. -/
inductive OsmError
  | state (e : StateError)
  | store (e : StoreError)
deriving DecidableEq

/-! ## Association lists modelling `im::HashMap` -/

def alGet {α β : Type} [DecidableEq α] : List (α × β) → α → Option β
  | [], _ => none
  | (k', v) :: rest, k => if k' = k then some v else alGet rest k

/-- Insert replaces the binding in place when the key is present and
appends otherwise (map `insert`). -/
def alInsert {α β : Type} [DecidableEq α] : List (α × β) → α → β → List (α × β)
  | [], k, v => [(k, v)]
  | (k', v') :: rest, k, v =>
    if k' = k then (k, v) :: rest else (k', v') :: alInsert rest k v

/-- Removal of a key (map `remove`); keys of a map are unique, so
removing every occurrence agrees with the source on representable
states. -/
def alRemove {α β : Type} [DecidableEq α] : List (α × β) → α → List (α × β)
  | [], _ => []
  | (k', v) :: rest, k =>
    if k' = k then alRemove rest k else (k', v) :: alRemove rest k

/-! ## Catalog state (src/src/state.rs) -/

/-- Arrow and parquet schemas are opaque to the catalog; they are
modelled as `Nat` identifiers. -/
inductive FormatState
  | csv (schema : Nat) (delimiter : String)
  | parquet (schema : Nat) (num_rows : Nat)
deriving DecidableEq

def FormatState.num_rows : FormatState → Option Nat
  | .parquet _ n => some n
  | _ => none

structure ObjectState where
  format : FormatState
  size : Nat
deriving DecidableEq

def ObjectState.num_rows (o : ObjectState) : Option Nat :=
  o.format.num_rows

structure PartitionState where
  objects : List (ObjectKey × ObjectState)
deriving DecidableEq

def PartitionState.get (ps : PartitionState) (k : ObjectKey) : Except StateError ObjectState :=
  match alGet ps.objects k with
  | some v => .ok v
  | none => .error (.missingObject k)

def PartitionState.size (ps : PartitionState) : Nat :=
  ps.objects.foldl (fun acc e => acc + e.2.size) 0

def PartitionState.insert_object (ps : PartitionState) (k : ObjectKey) (st : ObjectState) :
    PartitionState :=
  ⟨alInsert ps.objects k st⟩

def PartitionState.remove_object (ps : PartitionState) (k : ObjectKey) :
    Except StateError (ObjectState × PartitionState) :=
  match alGet ps.objects k with
  | some v => .ok (v, ⟨alRemove ps.objects k⟩)
  | none => .error (.missingObject k)

structure DatasetState where
  partitions : List (Partition × PartitionState)
deriving DecidableEq

def DatasetState.get (ds : DatasetState) (p : Partition) : Except StateError PartitionState :=
  match alGet ds.partitions p with
  | some v => .ok v
  | none => .error (.missingPartition p)

def DatasetState.list_objects (ds : DatasetState) (p : Partition) :
    Except StateError (List ObjectKey) :=
  (ds.get p).map (fun ps => ps.objects.map Prod.fst)

def DatasetState.remove_partition (ds : DatasetState) (p : Partition) :
    Except StateError DatasetState :=
  match alGet ds.partitions p with
  | some _ => .ok ⟨alRemove ds.partitions p⟩
  | none => .error (.missingPartition p)

def DatasetState.insert_partition (ds : DatasetState) (p : Partition) (st : PartitionState) :
    DatasetState :=
  ⟨alInsert ds.partitions p st⟩

structure State where
  datasets : List (DatasetPath × DatasetState)
deriving DecidableEq

def State.new : State := ⟨[]⟩

def State.get (s : State) (d : DatasetPath) : Except StateError DatasetState :=
  match alGet s.datasets d with
  | some v => .ok v
  | none => .error (.missingDataset d)

def State.get_partition (s : State) (p : PartitionPath) : Except StateError PartitionState := do
  let ds ← s.get p.dataset
  ds.get p.partition

def State.get_object (s : State) (p : ObjectPath) : Except StateError ObjectState := do
  let ds ← s.get p.dataset_path
  let ps ← ds.get p.get_partition
  ps.get p.key

def State.contains_partition (s : State) (p : PartitionPath) : Bool :=
  match s.get p.dataset with
  | .ok ds => (ds.get p.partition).toOption.isSome
  | .error _ => false

def State.contains_object (s : State) (p : ObjectPath) : Bool :=
  match s.get p.dataset_path with
  | .error _ => false
  | .ok ds =>
    match ds.get p.get_partition with
    | .ok ps => (ps.get p.key).toOption.isSome
    | .error _ => false

def State.list_partitions (s : State) (d : DatasetPath) :
    Except StateError (List PartitionPath) :=
  (s.get d).map (fun ds => ds.partitions.map (fun e => d.partition_path e.1))

def State.list_objects (s : State) (p : PartitionPath) :
    Except StateError (List ObjectPath) := do
  let ds ← s.get p.dataset
  let keys ← ds.list_objects p.partition
  pure (keys.map (fun k => p.object_path k))

def State.insert_dataset (s : State) (d : DatasetPath) (st : DatasetState) :
    Except StateError State :=
  .ok ⟨alInsert s.datasets d st⟩

def State.insert_partition (s : State) (p : PartitionPath) (st : PartitionState) :
    Except StateError State := do
  let ds ← s.get p.dataset
  pure ⟨alInsert s.datasets p.dataset (ds.insert_partition p.partition st)⟩

def State.insert_object (s : State) (p : ObjectPath) (st : ObjectState) :
    Except StateError State := do
  let ds ← s.get p.dataset_path
  let ps ← ds.get p.get_partition
  pure ⟨alInsert s.datasets p.dataset_path
        ⟨alInsert ds.partitions p.get_partition (ps.insert_object p.key st)⟩⟩

def State.remove_partition (s : State) (p : PartitionPath) :
    Except StateError State := do
  let ds ← s.get p.dataset
  let ds' ← ds.remove_partition p.partition
  pure ⟨alInsert s.datasets p.dataset ds'⟩

def State.remove_object (s : State) (p : ObjectPath) :
    Except StateError State := do
  let ds ← s.get p.dataset_path
  let ps ← ds.get p.get_partition
  let r ← ps.remove_object p.key
  pure ⟨alInsert s.datasets p.dataset_path ⟨alInsert ds.partitions p.get_partition r.2⟩⟩

/-- `State::move_object` (src/src/state.rs lines 261-283): remove from
the source partition, then upsert into the target partition of the
target dataset, creating that partition if absent; the whole update is
built on one copy of the state. -/
def State.move_object (s : State) (src tgt : ObjectPath) : Except StateError State := do
  let sds ← s.get src.dataset_path
  let sps ← sds.get src.get_partition
  let r ← sps.remove_object src.key
  let s1 : State :=
    ⟨alInsert s.datasets src.dataset_path ⟨alInsert sds.partitions src.get_partition r.2⟩⟩
  let tds ← s1.get tgt.dataset_path
  let tps := match alGet tds.partitions tgt.get_partition with
    | some ps => ps
    | none => ⟨[]⟩
  pure ⟨alInsert s1.datasets tgt.dataset_path
        ⟨alInsert tds.partitions tgt.get_partition ⟨alInsert tps.objects tgt.key r.1⟩⟩⟩

/-! ## Store interface (src/src/store.rs trait Store) -/

structure Store where
  list_partitions : DatasetPath → Except OsmError (List Partition)
  list_objects : PartitionPath → Except OsmError (List ObjectKey)
  read_object : ObjectPath → Except OsmError ObjectState
  move_object : ObjectPath → ObjectPath → Except OsmError Unit
  remove_partition : PartitionPath → Except OsmError Unit
  remove_object : ObjectPath → Except OsmError Unit
  rebalance_objects :
    List ObjectPath → List ObjectPath → RebalanceTarget → Except OsmError (List ObjectState)

/-! ## Actions (src/src/action.rs) -/

inductive RAction
  | reloadDataset (path : DatasetPath)
  | reloadPartition (path : PartitionPath)
  | removePartition (path : PartitionPath)
  | removeObject (path : ObjectPath)
  | move (source target : ObjectPath)
  | rebalance (paths : List ObjectPath) (size : Nat) (count : Nat)
deriving DecidableEq

def RAction.key : RAction → String
  | .reloadDataset p => "reload(" ++ p.display ++ ")"
  | .reloadPartition p => "reload(" ++ p.display ++ ")"
  | .removePartition p => "rm(" ++ p.display ++ "/)"
  | .removeObject p => "remove(" ++ p.display ++ ")"
  | .move s t => "move(" ++ s.display ++ ", " ++ t.display ++ ")"
  | .rebalance paths _ count =>
    "rebalance(" ++ String.intercalate ", " (paths.map ObjectPath.display)
      ++ ", " ++ toString count ++ ")"

/-- `ReloadPartitionAction::load_partition`: list the partition's keys
and read each object's state. -/
def load_partition (store : Store) (path : PartitionPath) :
    Except OsmError PartitionState := do
  let keys ← store.list_objects path
  let entries ← keys.mapM (fun k => do
    let st ← store.read_object (path.object_path k)
    pure (k, st))
  pure ⟨entries⟩

/-- `ReloadDatasetAction::load_dataset`: list partitions and load each.  -/
def load_dataset (store : Store) (path : DatasetPath) :
    Except OsmError DatasetState := do
  let parts ← store.list_partitions path
  let entries ← parts.mapM (fun part => do
    let ps ← load_partition store (path.partition_path part)
    pure (part, ps))
  pure ⟨entries⟩

/-- Rust panics (`unwrap` on a missing format, indexing an empty path
list, division by a zero count) abort the process; the model folds them
into an IO-flavoured error.  No claim exercises these inputs. -/
def panicError : OsmError := .store (.io "panic")

/-- `RebalanceAction::execute` total-row fold (src/src/action.rs lines
198-207): `Some` only when every input reports a row count. -/
def rebalanceTotalRows (state : State) (paths : List ObjectPath) : Option Nat :=
  paths.foldl
    (fun acc path =>
      match acc, (match state.get_object path with
                  | .ok o => o.num_rows
                  | .error _ => none) with
      | some a, some n => some (a + n)
      | _, _ => none)
    (some 0)

def rebalanceTarget (state : State) (paths : List ObjectPath) (size count : Nat) :
    RebalanceTarget :=
  match rebalanceTotalRows state paths with
  | some rows => .rows (rows / count)
  | none => .size size

/-- Output paths `0.F`, `1.F`, ... in the partition of `paths[0]`
(src/src/action.rs lines 217-223). -/
def rebalanceOutputs (paths : List ObjectPath) (count : Nat) :
    Except OsmError (List ObjectPath) := do
  let first ← match paths[0]? with
    | some p => pure p
    | none => .error panicError
  let format ← match first.infer_format with
    | some f => pure f
    | none => .error panicError
  pure ((List.range count).map (fun idx =>
    first.partition_path.object_path ⟨toString idx ++ "." ++ format.display⟩))

/-- `Action::execute` for each action kind (src/src/action.rs).  Each
arm mirrors the Rust body: the pure state transition and the store side
effect in source order, errors propagating via `?`. -/
def RAction.exec (a : RAction) (store : Store) (state : State) : Except OsmError State :=
  match a with
  | .reloadDataset p => do
    let ds ← load_dataset store p
    (state.insert_dataset p ds).mapError OsmError.state
  | .reloadPartition p => do
    let ps ← load_partition store p
    (state.insert_partition p ps).mapError OsmError.state
  | .removePartition p => do
    let new_state ← (state.remove_partition p).mapError OsmError.state
    let _ ← store.remove_partition p
    pure new_state
  | .removeObject p => do
    let new_state ← (state.remove_object p).mapError OsmError.state
    let _ ← store.remove_object p
    pure new_state
  | .move src tgt => do
    let new_state ← (state.move_object src tgt).mapError OsmError.state
    let _ ← store.move_object src tgt
    pure new_state
  | .rebalance paths size count => do
    let target := rebalanceTarget state paths size count
    let output_paths ← rebalanceOutputs paths count
    let object_states ← store.rebalance_objects paths output_paths target
    (output_paths.zip object_states).foldlM
      (fun st pr => (st.insert_object pr.1 pr.2).mapError OsmError.state) state

/-- The store interaction performed inside `execute`, in isolation:
used to state that a failing side effect fails the whole action. -/
def storeSideEffectResult (a : RAction) (store : Store) (state : State) :
    Except OsmError Unit :=
  match a with
  | .reloadDataset p => do
    let _ ← load_dataset store p
    pure ()
  | .reloadPartition p => do
    let _ ← load_partition store p
    pure ()
  | .removePartition p => store.remove_partition p
  | .removeObject p => store.remove_object p
  | .move src tgt => store.move_object src tgt
  | .rebalance paths size count => do
    let output_paths ← rebalanceOutputs paths count
    let _ ← store.rebalance_objects paths output_paths
      (rebalanceTarget state paths size count)
    pure ()

/-! ## Action DAG (src/src/action.rs `ActionTree`) -/

/-- HashSet insertion modelled on duplicate-free lists. -/
def insertKeySet (l : List Nat) (k : Nat) : List Nat :=
  if k ∈ l then l else l ++ [k]

structure ActionTree where
  next_key : Nat
  roots : List Nat
  upstream : List (Nat × List Nat)
  actions : List (Nat × List RAction)
deriving DecidableEq

def ActionTree.new : ActionTree := ⟨1, [], [], []⟩

/-- `ActionTree::add_node`: allocate the next key; record one upstream
entry per dependency; keys with an empty dependency slice become roots. -/
def ActionTree.add_node (t : ActionTree) (dependencies : List Nat) : ActionTree × Nat :=
  let key := t.next_key
  let upstream := dependencies.foldl
    (fun up dep => alInsert up key (insertKeySet ((alGet up key).getD []) dep))
    t.upstream
  let roots := if dependencies = [] then insertKeySet t.roots key else t.roots
  (⟨key + 1, roots, upstream, t.actions⟩, key)

def ActionTree.add_action (t : ActionTree) (key : Nat) (a : RAction) : ActionTree :=
  ⟨t.next_key, t.roots, t.upstream,
   alInsert t.actions key ((alGet t.actions key).getD [] ++ [a])⟩

def ActionTree.single (a : RAction) : ActionTree :=
  let r := ActionTree.new.add_node []
  r.1.add_action r.2 a

def ActionTree.size (t : ActionTree) : Nat := t.next_key - 1

def ActionTree.get_actions (t : ActionTree) (key : Nat) : List RAction :=
  (alGet t.actions key).getD []

/-- `ActionTree::next_batch` (src/src/action.rs lines 290-310): for an
empty completed set, all roots; otherwise the entries of the `upstream`
map whose key is not completed and whose dependencies are all
completed.  Nodes without an upstream entry are only ever produced by
the first branch. -/
def ActionTree.next_batch (t : ActionTree) (completed : List Nat) :
    List (Nat × List RAction) :=
  if completed = [] then
    t.roots.map (fun k => (k, t.get_actions k))
  else
    (t.upstream.filter
      (fun e => !(completed.contains e.1) && e.2.all (fun u => completed.contains u))).map
      (fun e => (e.1, t.get_actions e.1))

/-! ## Runtime (src/src/runtime.rs) -/

structure Execution where
  state : State
  passed : List String
  failed : List (String × OsmError)
deriving DecidableEq

structure BatchResult where
  state : State
  passed : List String
  failed : List (String × OsmError)
  errors : Nat
deriving DecidableEq

/-- The inner per-node loop of `Runtime::execute`: each action runs
against the state produced so far; a success replaces the current
state, a failure is recorded and the state is kept. -/
def processActions (store : Store) : List RAction → State → BatchResult
  | [], s => ⟨s, [], [], 0⟩
  | a :: rest, s =>
    match a.exec store s with
    | .ok s' =>
      let r := processActions store rest s'
      ⟨r.state, a.key :: r.passed, r.failed, r.errors⟩
    | .error e =>
      let r := processActions store rest s
      ⟨r.state, r.passed, (a.key, e) :: r.failed, r.errors + 1⟩

/-- One batch of `Runtime::execute`: runs every node's actions and
returns the node keys marked completed together with the accumulated
outcomes. -/
def processBatch (store : Store) : List (Nat × List RAction) → State → List Nat × BatchResult
  | [], s => ([], ⟨s, [], [], 0⟩)
  | node :: rest, s =>
    let r1 := processActions store node.2 s
    let r := processBatch store rest r1.state
    (node.1 :: r.1,
     ⟨r.2.state, r1.passed ++ r.2.passed, r1.failed ++ r.2.failed, r1.errors + r.2.errors⟩)

/-- The `while` loop of `Runtime::execute` with an explicit iteration
bound.  The Rust loop runs until every node is completed and diverges
on a tree whose batches dry up early; every terminating run completes
at least one node per iteration, so `size + 1` iterations reproduce
every terminating execution. -/
def executeLoop (store : Store) (tree : ActionTree) :
    Nat → List Nat → State → List String → List (String × OsmError) → Execution
  | 0, _, s, passed, failed => ⟨s, passed, failed⟩
  | fuel + 1, completed, s, passed, failed =>
    if completed.length = tree.size then ⟨s, passed, failed⟩
    else
      let pr := processBatch store (tree.next_batch completed) s
      if 0 < pr.2.errors then
        ⟨pr.2.state, passed ++ pr.2.passed, failed ++ pr.2.failed⟩
      else
        executeLoop store tree fuel (completed ++ pr.1) pr.2.state
          (passed ++ pr.2.passed) (failed ++ pr.2.failed)

def Runtime.execute (store : Store) (state : State) (tree : ActionTree) : Execution :=
  executeLoop store tree (tree.size + 1) [] state [] []

/-! ## Jobs (src/src/job.rs) -/

/-- Modelled from the spec: `Bytes::grow(1.5)` is called in
src/src/job.rs but not defined under src/.  The spec (section 4.6)
states the hysteresis threshold as the exact product 1.5 x target_size;
over naturals the comparison `size < 1.5 x target` is `2 * size <
3 * target`. -/
def belowHysteresis (size target : Nat) : Bool :=
  2 * size < 3 * target

/-- `RebalanceObjects::actions` (src/src/job.rs lines 85-105).
`Bytes::div` is absent from src/; the spec defines `target_count =
floor(partition_size / target_size)`, i.e. Nat division.  The call
`RebalanceAction::new(objects, target_count)` in src/src/job.rs passes
two arguments where src/src/action.rs declares three (paths, size,
count); the model supplies the job's `target_size` as the missing size
argument. -/
def RebalanceObjects.actions (path : PartitionPath) (target_size : Nat) (s : State) :
    Except StateError ActionTree := do
  let ps ← s.get_partition path
  let partition_size := ps.size
  if belowHysteresis partition_size target_size then
    pure ActionTree.new
  else do
    let objects ← s.list_objects path
    let target_count := partition_size / target_size
    let r1 := ActionTree.new.add_node []
    let t1 := r1.1.add_action r1.2 (.rebalance objects target_size target_count)
    let r2 := t1.add_node []
    let t2 := objects.foldl (fun t o => t.add_action r2.2 (.removeObject o)) r2.1
    pure t2

/-! ## Parquet combine (src/src/parquet.rs `Parquet::combine_objects`) -/

/-- One parquet input: its schema (abstract id) and the row counts of
the record batches its reader yields in order. -/
structure PqInput where
  schema : Nat
  batches : List Nat
deriving DecidableEq

/-- One output writer: the schema it was opened with, the rows written
to it, and whether `close()` was called on it (only closed writers have
a parquet footer on disk). -/
structure PqWriter where
  schema : Nat
  rows : Nat
  closed : Bool
deriving DecidableEq

structure PqStep where
  emitted : List PqWriter
  cur : PqWriter
  count : Nat
  remaining : Nat
deriving DecidableEq

/-- The inner batch loop of `combine_objects`: before writing a batch,
if `writer_count >= target_rows` and writers remain, close the current
writer and open the next; then write the whole batch to the current
writer. -/
def pqProcessBatches (target schema : Nat) :
    List Nat → PqWriter → Nat → Nat → PqStep
  | [], cur, count, remaining => ⟨[], cur, count, remaining⟩
  | b :: rest, cur, count, remaining =>
    if target ≤ count ∧ 0 < remaining then
      let r := pqProcessBatches target schema rest ⟨schema, b, false⟩ b (remaining - 1)
      ⟨{ cur with closed := true } :: r.emitted, r.cur, r.count, r.remaining⟩
    else
      pqProcessBatches target schema rest { cur with rows := cur.rows + b } (count + b) remaining

/-- The outer `loop` of `combine_objects`: each iteration pops the next
reader AND the next writer (`writers.remove(0)`), dropping any writer
carried over from the previous input without closing it, and does not
reset `writer_count`.  `none` models the `Vec::remove` panic when
readers or writers run out. -/
def pqCombineGo (target : Nat) :
    List PqInput → Option PqWriter → Nat → Nat → Option (List PqWriter)
  | [], _, _, _ => none
  | input :: rest, prev, count, remaining =>
    if remaining = 0 then none
    else
      let abandoned : List PqWriter := match prev with
        | some w => [w]
        | none => []
      let r := pqProcessBatches target input.schema input.batches
        ⟨input.schema, 0, false⟩ count (remaining - 1)
      if rest = [] then
        some (abandoned ++ r.emitted ++ [{ r.cur with closed := true }])
      else
        (pqCombineGo target rest (some r.cur) r.count r.remaining).map
          (fun ws => abandoned ++ r.emitted ++ ws)

/-- `Parquet::combine_objects` over `numOutputs` writers with a per-file
row target: returns the writers in the order they were pulled, or
`none` on a panic.  Output slots never pulled stay empty files. -/
def pqCombine (inputs : List PqInput) (numOutputs target : Nat) : Option (List PqWriter) :=
  pqCombineGo target inputs none 0 numOutputs

/-! ## Concrete fixtures used by counterexamples and witnesses -/

def dpath0 : DatasetPath := ⟨⟨.file, "bkt"⟩, "ds"⟩

def part0 : Partition := ⟨[("year", "2024")]⟩

def ppath0 : PartitionPath := ⟨dpath0, part0⟩

def okey0 : ObjectKey := ⟨"a.parquet"⟩

def opath0 : ObjectPath := ⟨ppath0, okey0⟩

def ostate0 : ObjectState := ⟨.parquet 0 100, 1024⟩

def ostate1 : ObjectState := ⟨.parquet 0 7, 64⟩

def okey1 : ObjectKey := ⟨"b.parquet"⟩

def opath1 : ObjectPath := ⟨ppath0, okey1⟩

def pstate0 : PartitionState := ⟨[(okey0, ostate0)]⟩

def dstate0 : DatasetState := ⟨[(part0, pstate0)]⟩

def state0 : State := ⟨[(dpath0, dstate0)]⟩

def failStore : Store :=
  ⟨fun _ => .error (.store (.io "fail")),
   fun _ => .error (.store (.io "fail")),
   fun _ => .error (.store (.io "fail")),
   fun _ _ => .error (.store (.io "fail")),
   fun _ => .error (.store (.io "fail")),
   fun _ => .error (.store (.io "fail")),
   fun _ _ _ => .error (.store (.io "fail"))⟩

/-! ## Association-list lemmas -/

theorem alGet_insert_self {α β : Type} [DecidableEq α] (l : List (α × β)) (k : α) (v : β) :
    alGet (alInsert l k v) k = some v := by
  induction l with
  | nil => simp [alInsert, alGet]
  | cons e rest ih =>
    by_cases h : e.1 = k
    · simp [alInsert, alGet, h]
    · simp [alInsert, alGet, h, ih]

theorem alGet_insert_ne {α β : Type} [DecidableEq α] (l : List (α × β)) (k k' : α) (v : β)
    (h : k' ≠ k) : alGet (alInsert l k v) k' = alGet l k' := by
  induction l with
  | nil => simp [alInsert, alGet, Ne.symm h]
  | cons e rest ih =>
    by_cases he : e.1 = k
    · subst he
      simp [alInsert, alGet, Ne.symm h, if_neg (Ne.symm h)]
    · simp [alInsert, alGet, he, ih]

theorem alGet_remove_self {α β : Type} [DecidableEq α] (l : List (α × β)) (k : α) :
    alGet (alRemove l k) k = none := by
  induction l with
  | nil => simp [alRemove, alGet]
  | cons e rest ih =>
    by_cases h : e.1 = k
    · simp [alRemove, h, ih]
    · simp [alRemove, alGet, h, ih]

theorem alGet_remove_ne {α β : Type} [DecidableEq α] (l : List (α × β)) (k k' : α)
    (h : k' ≠ k) : alGet (alRemove l k) k' = alGet l k' := by
  induction l with
  | nil => simp [alRemove]
  | cons e rest ih =>
    by_cases he : e.1 = k
    · subst he
      simp [alRemove, alGet, ih, if_neg (Ne.symm h)]
    · simp [alRemove, alGet, he, ih]

/-! ## State-operation lemmas -/

theorem get_object_parts {s : State} {p : ObjectPath} {o : ObjectState}
    (h : s.get_object p = .ok o) :
    ∃ ds ps, alGet s.datasets p.dataset_path = some ds
      ∧ alGet ds.partitions p.get_partition = some ps
      ∧ alGet ps.objects p.key = some o := by
  cases hds : alGet s.datasets p.dataset_path with
  | none => simp [State.get_object, State.get, hds, bind, Except.bind] at h
  | some ds =>
    cases hps : alGet ds.partitions p.get_partition with
    | none =>
      simp [State.get_object, State.get, DatasetState.get, hds, hps, bind, Except.bind] at h
    | some ps =>
      cases ho : alGet ps.objects p.key with
      | none =>
        simp [State.get_object, State.get, DatasetState.get, PartitionState.get,
          hds, hps, ho, bind, Except.bind] at h
      | some o2 =>
        have ho2 : o2 = o := by
          simp [State.get_object, State.get, DatasetState.get, PartitionState.get,
            hds, hps, ho, bind, Except.bind] at h
          exact h
        exact ⟨ds, ps, rfl, hps, by rw [ho, ho2]⟩

/-- Shared core of the insert-object claims: when the dataset and the
partition of the path are present, insertion succeeds and the inserted
object is what get_object returns on the new state. -/
theorem insert_object_ok (s : State) (p : ObjectPath) (o : ObjectState)
    (ds : DatasetState) (ps : PartitionState)
    (hds : alGet s.datasets p.dataset_path = some ds)
    (hps : alGet ds.partitions p.get_partition = some ps) :
    s.insert_object p o =
      .ok ⟨alInsert s.datasets p.dataset_path
            ⟨alInsert ds.partitions p.get_partition (ps.insert_object p.key o)⟩⟩
    ∧ (⟨alInsert s.datasets p.dataset_path
          ⟨alInsert ds.partitions p.get_partition (ps.insert_object p.key o)⟩⟩ : State).get_object p
        = .ok o := by
  constructor
  · simp [State.insert_object, State.get, DatasetState.get, hds, hps, bind, Except.bind,
      pure, Except.pure]
  · simp [State.get_object, State.get, DatasetState.get, PartitionState.get,
      PartitionState.insert_object, alGet_insert_self, bind, Except.bind, pure, Except.pure]

/-! ## Claim C4 -/

/-- Claim C4 counterexample: inserting at `opath0` the very object
state already stored there succeeds and returns a state equal to
`state0`, refuting the claimed `S ≠ S'` (the path's dataset and
partition do exist, as the first two conjuncts show). -/
theorem insert_object_existing_identity :
    state0.contains_partition ppath0 = true
    ∧ state0.contains_object opath0 = true
    ∧ state0.insert_object opath0 ostate0 = .ok state0 := by
  refine ⟨by decide, by decide, by decide⟩

/-- Claim C4 (amended): for every State S and ObjectPath P whose
dataset and partition exist in S, `insert_object(S, P, O)` returns a
new state Sp with `get_object(Sp, P) = O`; the prior value S is left
unchanged (transitions are pure, S is not modified); and `Sp ≠ S`
whenever `get_object(S, P)` was not already O — when P already held
exactly O the returned state equals S. -/
theorem insert_object_spec (s : State) (p : ObjectPath) (o : ObjectState)
    (ds : DatasetState) (ps : PartitionState)
    (hds : alGet s.datasets p.dataset_path = some ds)
    (hps : alGet ds.partitions p.get_partition = some ps) :
    ∃ s', s.insert_object p o = .ok s'
      ∧ s'.get_object p = .ok o
      ∧ (s.get_object p ≠ .ok o → s' ≠ s) := by
  obtain ⟨h1, h2⟩ := insert_object_ok s p o ds ps hds hps
  refine ⟨_, h1, h2, ?_⟩
  intro hne heq
  exact hne (by rw [← heq]; exact h2)

/-- Closed witness for insert_object_spec at a concrete state and a
fresh object value. -/
theorem insert_object_spec_witness :
    (alGet state0.datasets opath0.dataset_path = some dstate0
      ∧ alGet dstate0.partitions opath0.get_partition = some pstate0)
    ∧ ∃ s', state0.insert_object opath0 ostate1 = .ok s'
        ∧ s'.get_object opath0 = .ok ostate1
        ∧ (state0.get_object opath0 ≠ .ok ostate1 → s' ≠ state0) :=
  ⟨⟨by decide, by decide⟩,
   insert_object_spec state0 opath0 ostate1 dstate0 pstate0 (by decide) (by decide)⟩

/-! ## Claim C10 -/

/-- Claim C10: for every State S and ObjectPath P whose dataset and
partition exist and already hold an object under the same key,
`insert_object(S, P, O)` succeeds and silently replaces the existing
object state with O (an upsert); presence of the key never makes it
fail. -/
theorem insert_object_upsert (s : State) (p : ObjectPath) (o o' : ObjectState)
    (h : s.get_object p = .ok o') :
    ∃ s', s.insert_object p o = .ok s' ∧ s'.get_object p = .ok o := by
  obtain ⟨ds, ps, hds, hps, _⟩ := get_object_parts h
  obtain ⟨h1, h2⟩ := insert_object_ok s p o ds ps hds hps
  exact ⟨_, h1, h2⟩

/-- Closed witness for insert_object_upsert: the key `okey0` is
already bound in `state0` and is overwritten with `ostate1`. -/
theorem insert_object_upsert_witness :
    state0.get_object opath0 = .ok ostate0
    ∧ ∃ s', state0.insert_object opath0 ostate1 = .ok s'
        ∧ s'.get_object opath0 = .ok ostate1 :=
  ⟨by decide, insert_object_upsert state0 opath0 ostate1 ostate0 (by decide)⟩

/-! ## Claim C5 -/

/-- Claim C5 counterexample: `move_object` with `src = tgt` on a state
holding that object succeeds (both failure conditions are absent) and
returns a state equal to the input, in which `contains_object(src)` is
still true — the claimed post-state `contains_object(src) = false`
fails for `src = tgt`. -/
theorem move_object_self_identity :
    state0.contains_object opath0 = true
    ∧ state0.move_object opath0 opath0 = .ok state0 := by
  refine ⟨by decide, by decide⟩

/-- Claim C5 (amended): `move_object(S, src, tgt)` fails exactly when
src's dataset, partition, or object is missing or tgt's dataset is
missing (tgt's partition is auto-created); on success the returned Sp
satisfies `contains_object(tgt) = true`, `get_object(Sp, tgt) =
get_object(S, src)`, and — provided `src ≠ tgt` — `contains_object(src)
= false` (for `src = tgt` the object is removed and re-inserted at the
same path, so it is still present); on failure no new state is
produced, S is unchanged. -/
theorem move_object_spec (s : State) (src tgt : ObjectPath) :
    ((s.move_object src tgt).toOption.isSome = true ↔
      (s.contains_object src = true ∧ (alGet s.datasets tgt.dataset_path).isSome = true))
    ∧ (∀ s', s.move_object src tgt = .ok s' →
        s'.contains_object tgt = true
        ∧ s'.get_object tgt = s.get_object src
        ∧ (src ≠ tgt → s'.contains_object src = false)) := by
  constructor
  · cases hds : alGet s.datasets src.dataset_path with
    | none =>
      have hc : s.contains_object src = false := by
        simp [State.contains_object, State.get, hds]
      simp [State.move_object, State.get, hds, bind, Except.bind, Except.toOption, hc]
    | some sds =>
      cases hps : alGet sds.partitions src.get_partition with
      | none =>
        have hc : s.contains_object src = false := by
          simp [State.contains_object, State.get, DatasetState.get, hds, hps]
        simp [State.move_object, State.get, DatasetState.get, hds, hps, bind, Except.bind,
          Except.toOption, hc]
      | some sps =>
        cases ho : alGet sps.objects src.key with
        | none =>
          have hc : s.contains_object src = false := by
            simp [State.contains_object, State.get, DatasetState.get, PartitionState.get,
              hds, hps, ho, Except.toOption]
          simp [State.move_object, State.get, DatasetState.get, PartitionState.remove_object,
            hds, hps, ho, bind, Except.bind, Except.toOption, hc]
        | some obj =>
          have hc : s.contains_object src = true := by
            simp [State.contains_object, State.get, DatasetState.get, PartitionState.get,
              hds, hps, ho, Except.toOption]
          by_cases hAB : tgt.dataset_path = src.dataset_path
          · simp [State.move_object, State.get, DatasetState.get, PartitionState.remove_object,
              hds, hps, ho, bind, Except.bind, pure, Except.pure, Except.toOption, hc,
              hAB, alGet_insert_self]
          · have hlook : alGet (alInsert s.datasets src.dataset_path
                ⟨alInsert sds.partitions src.get_partition ⟨alRemove sps.objects src.key⟩⟩)
                tgt.dataset_path = alGet s.datasets tgt.dataset_path :=
              alGet_insert_ne _ _ _ _ hAB
            cases htd : alGet s.datasets tgt.dataset_path with
            | none =>
              simp [State.move_object, State.get, DatasetState.get,
                PartitionState.remove_object, hds, hps, ho, hlook, htd, bind, Except.bind,
                Except.toOption, hc]
            | some tds =>
              simp [State.move_object, State.get, DatasetState.get,
                PartitionState.remove_object, hds, hps, ho, hlook, htd, bind, Except.bind,
                pure, Except.pure, Except.toOption, hc]
  · intro s' hok
    cases hds : alGet s.datasets src.dataset_path with
    | none =>
      simp [State.move_object, State.get, hds, bind, Except.bind] at hok
    | some sds =>
      cases hps : alGet sds.partitions src.get_partition with
      | none =>
        simp [State.move_object, State.get, DatasetState.get, hds, hps, bind,
          Except.bind] at hok
      | some sps =>
        cases ho : alGet sps.objects src.key with
        | none =>
          simp [State.move_object, State.get, DatasetState.get, PartitionState.remove_object,
            hds, hps, ho, bind, Except.bind] at hok
        | some obj =>
          cases htds : alGet (alInsert s.datasets src.dataset_path
              ⟨alInsert sds.partitions src.get_partition ⟨alRemove sps.objects src.key⟩⟩)
              tgt.dataset_path with
          | none =>
            simp [State.move_object, State.get, DatasetState.get,
              PartitionState.remove_object, hds, hps, ho, htds, bind, Except.bind] at hok
          | some tds =>
            have hs' : s' =
                ⟨alInsert (alInsert s.datasets src.dataset_path
                    ⟨alInsert sds.partitions src.get_partition ⟨alRemove sps.objects src.key⟩⟩)
                  tgt.dataset_path
                  ⟨alInsert tds.partitions tgt.get_partition
                    ⟨alInsert (match alGet tds.partitions tgt.get_partition with
                        | some ps => ps
                        | none => (⟨[]⟩ : PartitionState)).objects tgt.key obj⟩⟩⟩ := by
              simp [State.move_object, State.get, DatasetState.get,
                PartitionState.remove_object, hds, hps, ho, htds, bind, Except.bind,
                pure, Except.pure] at hok
              exact hok.symm
            subst hs'
            have hsrc_ok : s.get_object src = .ok obj := by
              simp [State.get_object, State.get, DatasetState.get, PartitionState.get,
                hds, hps, ho, bind, Except.bind]
            refine ⟨?_, ?_, ?_⟩
            · simp [State.contains_object, State.get, DatasetState.get, PartitionState.get,
                alGet_insert_self, Except.toOption]
            · rw [hsrc_ok]
              simp [State.get_object, State.get, DatasetState.get, PartitionState.get,
                alGet_insert_self, bind, Except.bind]
            · intro hne
              by_cases hAB : src.dataset_path = tgt.dataset_path
              · have htds_eq : tds =
                    ⟨alInsert sds.partitions src.get_partition ⟨alRemove sps.objects src.key⟩⟩ := by
                  rw [← hAB, alGet_insert_self] at htds
                  exact (Option.some_injective _ htds).symm
                by_cases hPQ : src.get_partition = tgt.get_partition
                · have hkj : src.key ≠ tgt.key := by
                    intro hk
                    apply hne
                    obtain ⟨⟨a1, a2⟩, a3⟩ := src
                    obtain ⟨⟨b1, b2⟩, b3⟩ := tgt
                    simp only [ObjectPath.dataset_path, ObjectPath.get_partition] at hAB hPQ
                    have hk' : a3 = b3 := hk
                    simp [hAB, hPQ, hk']
                  have hmatch : (match alGet tds.partitions tgt.get_partition with
                      | some ps => ps
                      | none => (⟨[]⟩ : PartitionState)) =
                      ⟨alRemove sps.objects src.key⟩ := by
                    rw [htds_eq]
                    simp only [← hPQ, alGet_insert_self]
                  simp [State.contains_object, State.get, DatasetState.get,
                    PartitionState.get, hAB, alGet_insert_self, hPQ, hmatch,
                    alGet_insert_ne _ _ _ _ hkj, alGet_remove_self, Except.toOption]
                · simp [State.contains_object, State.get, DatasetState.get,
                    PartitionState.get, hAB, alGet_insert_self,
                    alGet_insert_ne _ _ _ _ hPQ, htds_eq, alGet_remove_self,
                    Except.toOption]
              · have h1 : alGet (alInsert (alInsert s.datasets src.dataset_path
                    ⟨alInsert sds.partitions src.get_partition ⟨alRemove sps.objects src.key⟩⟩)
                    tgt.dataset_path
                    ⟨alInsert tds.partitions tgt.get_partition
                      ⟨alInsert (match alGet tds.partitions tgt.get_partition with
                          | some ps => ps
                          | none => (⟨[]⟩ : PartitionState)).objects tgt.key obj⟩⟩)
                    src.dataset_path =
                    some ⟨alInsert sds.partitions src.get_partition
                      ⟨alRemove sps.objects src.key⟩⟩ := by
                  rw [alGet_insert_ne _ _ _ _ hAB, alGet_insert_self]
                simp [State.contains_object, State.get, DatasetState.get,
                  PartitionState.get, h1, alGet_insert_self, alGet_remove_self,
                  Except.toOption]

/-- Closed witness for move_object_spec: a successful move between two
distinct paths in `state0plus` and its post-state facts. -/
theorem move_object_spec_witness :
    ((state0.move_object opath0 opath1).toOption.isSome = true ↔
      (state0.contains_object opath0 = true
        ∧ (alGet state0.datasets opath1.dataset_path).isSome = true))
    ∧ (∀ s', state0.move_object opath0 opath1 = .ok s' →
        s'.contains_object opath1 = true
        ∧ s'.get_object opath1 = state0.get_object opath0
        ∧ (opath0 ≠ opath1 → s'.contains_object opath0 = false)) :=
  move_object_spec state0 opath0 opath1

/-! ## Claim C1 -/

/-- A tree with two root nodes (keys 1 and 2) and no edges. -/
def treeTwoRoots : ActionTree :=
  ((ActionTree.new.add_node []).1.add_node []).1

/-- A tree whose node 2 depends on the root node 1. -/
def treeChain : ActionTree :=
  (((ActionTree.new.add_node []).1).add_node [(ActionTree.new.add_node []).2]).1

/-- The node set claim C1 describes for a non-empty completed set:
every node of the graph (keys run densely from 1) that is not completed
and whose upstream dependency set is contained in completed. -/
def claimedNextBatchKeys (t : ActionTree) (completed : List Nat) : List Nat :=
  (List.range' 1 t.size).filter
    (fun k => !(completed.contains k)
      && ((alGet t.upstream k).getD []).all (fun u => completed.contains u))

/-- Claim C1 counterexample: in a two-root tree with the non-empty
completed set {1}, node 2 is a non-completed node whose (empty)
upstream set is trivially contained in the completed set, so the claim
requires it in the batch; `next_batch` iterates only over the
`upstream` map, which holds no entry for roots, and returns nothing. -/
theorem next_batch_nonempty_drops_roots :
    2 ∈ claimedNextBatchKeys treeTwoRoots [1]
    ∧ 2 ∉ (treeTwoRoots.next_batch [1]).map Prod.fst := by
  refine ⟨by decide, by decide⟩

theorem mem_filter_keys_iff (k : Nat) (q : Nat × List Nat → Bool) :
    ∀ l : List (Nat × List Nat), (l.map Prod.fst).Nodup →
      (k ∈ (l.filter q).map Prod.fst ↔
        ∃ deps, alGet l k = some deps ∧ q (k, deps) = true)
  | [], _ => by simp [alGet]
  | e :: rest, hnodup => by
    have htail := mem_filter_keys_iff k q rest (by
      simpa using hnodup.sublist (List.sublist_cons_self e.1 _))
    by_cases hk : e.1 = k
    · subst hk
      have hnodup' : (e.1 :: rest.map Prod.fst).Nodup := by simpa using hnodup
      have hnotin : e.1 ∉ rest.map Prod.fst := (List.nodup_cons.mp hnodup').1
      by_cases hq : q e = true
      · simp only [alGet, if_pos rfl]
        constructor
        · intro _
          exact ⟨e.2, rfl, by simpa using hq⟩
        · intro _
          simp [List.filter_cons, hq]
      · simp only [alGet, if_pos rfl]
        constructor
        · intro hmem
          rw [List.filter_cons, if_neg (by simpa using hq)] at hmem
          exfalso
          apply hnotin
          obtain ⟨e', he', hfst⟩ := List.mem_map.mp hmem
          exact hfst ▸ List.mem_map_of_mem Prod.fst (List.mem_of_mem_filter he')
        · rintro ⟨deps, hdeps, hqd⟩
          exfalso
          apply hq
          have : deps = e.2 := by simpa using hdeps.symm
          simpa [this] using hqd
    · rw [List.filter_cons]
      have halget : alGet (e :: rest) k = alGet rest k := by
        simp [alGet, hk]
      by_cases hq : q e = true
      · simp only [if_pos hq, List.map_cons, List.mem_cons, halget]
        constructor
        · intro h
          rcases h with h | h
          · exact absurd h.symm hk
          · exact htail.mp h
        · intro h
          exact Or.inr (htail.mpr h)
      · simp only [if_neg hq, halget]
        exact htail

/-- Claim C1 (amended): `next_batch(∅)` returns exactly the roots of
the tree; for a non-empty `completed`, `next_batch` returns exactly the
non-completed nodes that possess an upstream entry (i.e. were created
with at least one dependency) whose dependency set is contained in
`completed` — root nodes, having no upstream entry, are never returned
once `completed` is non-empty. -/
theorem next_batch_spec (t : ActionTree) (completed : List Nat) (k : Nat)
    (hnodup : (t.upstream.map Prod.fst).Nodup) :
    (completed = [] → (t.next_batch completed).map Prod.fst = t.roots)
    ∧ (completed ≠ [] →
      (k ∈ (t.next_batch completed).map Prod.fst ↔
        ∃ deps, alGet t.upstream k = some deps
          ∧ k ∉ completed ∧ ∀ u ∈ deps, u ∈ completed)) := by
  constructor
  · intro hc
    subst hc
    have hid : (Prod.fst ∘ fun k : Nat => (k, t.get_actions k)) = id := by
      funext x
      rfl
    rw [ActionTree.next_batch, if_pos rfl, List.map_map, hid, List.map_id]
  · intro hc
    rw [ActionTree.next_batch, if_neg hc]
    rw [List.map_map]
    have hfst : (Prod.fst ∘ fun e : Nat × List Nat => (e.1, t.get_actions e.1)) = Prod.fst := by
      funext e
      rfl
    rw [hfst, mem_filter_keys_iff k _ t.upstream hnodup]
    constructor
    · rintro ⟨deps, hdeps, hq⟩
      refine ⟨deps, hdeps, ?_, ?_⟩
      · intro hmem
        simp [List.contains, List.elem_iff] at hq
        exact hq.1 hmem
      · intro u hu
        simp [List.all_eq_true, List.contains, List.elem_iff] at hq
        exact hq.2 u hu
    · rintro ⟨deps, hdeps, hnc, hall⟩
      refine ⟨deps, hdeps, ?_⟩
      simp [List.all_eq_true, List.contains, List.elem_iff]
      exact ⟨hnc, hall⟩

/-- Closed witness for next_batch_spec on the chain tree with completed
= {1} and node 2. -/
theorem next_batch_spec_witness :
    ((treeChain.upstream.map Prod.fst).Nodup)
    ∧ (([1] : List Nat) = [] → (treeChain.next_batch [1]).map Prod.fst = treeChain.roots)
    ∧ (([1] : List Nat) ≠ [] →
      (2 ∈ (treeChain.next_batch [1]).map Prod.fst ↔
        ∃ deps, alGet treeChain.upstream 2 = some deps
          ∧ 2 ∉ ([1] : List Nat) ∧ ∀ u ∈ deps, u ∈ ([1] : List Nat))) :=
  ⟨by decide,
   (next_batch_spec treeChain [1] 2 (by decide)).1,
   (next_batch_spec treeChain [1] 2 (by decide)).2⟩

/-! ## Claim C2 -/

/-- A one-node tree whose single action removes `ppath0`. -/
def tree1 : ActionTree := ActionTree.single (.removePartition ppath0)

theorem processBatch_keys (store : Store) :
    ∀ (batch : List (Nat × List RAction)) (s : State),
      (processBatch store batch s).1 = batch.map Prod.fst
  | [], _ => rfl
  | node :: rest, s => by
    simp [processBatch, processBatch_keys store rest]

/-- Claim C2: one iteration of `Runtime::execute` marks every node of
the batch completed — the completed keys it adds are exactly the
batch's node keys, whatever the actions' outcomes — and when at least
one action of the batch fails, the loop returns the Execution
accumulated through this batch at once, so no action of any later
batch is ever executed. -/
theorem runtime_batch_completion_and_short_circuit
    (store : Store) (tree : ActionTree) (fuel : Nat) (completed : List Nat)
    (s : State) (passed : List String) (failed : List (String × OsmError))
    (h : completed.length ≠ tree.size) :
    (processBatch store (tree.next_batch completed) s).1
      = (tree.next_batch completed).map Prod.fst
    ∧ (0 < (processBatch store (tree.next_batch completed) s).2.errors →
        executeLoop store tree (fuel + 1) completed s passed failed =
          ⟨(processBatch store (tree.next_batch completed) s).2.state,
           passed ++ (processBatch store (tree.next_batch completed) s).2.passed,
           failed ++ (processBatch store (tree.next_batch completed) s).2.failed⟩) := by
  constructor
  · exact processBatch_keys store _ s
  · intro herr
    rw [executeLoop, if_neg h]
    simp only [if_pos herr]

/-- Closed witness for the runtime batch theorem: the single node of
`tree1` fails against the all-failing store on the empty catalog, is
marked completed anyway, and the loop returns right away. -/
theorem runtime_batch_completion_witness :
    (([] : List Nat).length ≠ tree1.size)
    ∧ ((processBatch failStore (tree1.next_batch []) State.new).1
        = (tree1.next_batch []).map Prod.fst
      ∧ (0 < (processBatch failStore (tree1.next_batch []) State.new).2.errors →
          executeLoop failStore tree1 (0 + 1) [] State.new [] [] =
            ⟨(processBatch failStore (tree1.next_batch []) State.new).2.state,
             [] ++ (processBatch failStore (tree1.next_batch []) State.new).2.passed,
             [] ++ (processBatch failStore (tree1.next_batch []) State.new).2.failed⟩)) :=
  ⟨by decide,
   runtime_batch_completion_and_short_circuit failStore tree1 0 [] State.new [] [] (by decide)⟩

/-! ## Claim C3 -/

/-- Claim C3: for every action kind, if the store side effect made
inside `execute(store, S)` fails, `execute` returns an error and no new
state; and for every failing action the runtime records the failure and
threads the unchanged prior state S to the remaining actions. -/
theorem action_store_failure_preserves_state
    (a : RAction) (store : Store) (s : State) (e0 : OsmError)
    (h : storeSideEffectResult a store s = .error e0)
    (rest : List RAction) :
    (∃ e, a.exec store s = .error e)
    ∧ (∀ e, a.exec store s = .error e →
        processActions store (a :: rest) s =
          ⟨(processActions store rest s).state,
           (processActions store rest s).passed,
           (a.key, e) :: (processActions store rest s).failed,
           (processActions store rest s).errors + 1⟩) := by
  constructor
  · cases a with
    | reloadDataset p =>
      cases hld : load_dataset store p with
      | error e =>
        exact ⟨e, by simp [RAction.exec, hld, bind, Except.bind]⟩
      | ok ds =>
        simp [storeSideEffectResult, hld, bind, Except.bind, pure, Except.pure] at h
    | reloadPartition p =>
      cases hld : load_partition store p with
      | error e =>
        exact ⟨e, by simp [RAction.exec, hld, bind, Except.bind]⟩
      | ok ps =>
        simp [storeSideEffectResult, hld, bind, Except.bind, pure, Except.pure] at h
    | removePartition p =>
      simp only [storeSideEffectResult] at h
      cases hst : s.remove_partition p with
      | error e =>
        exact ⟨.state e, by simp [RAction.exec, hst, bind, Except.bind, Except.mapError]⟩
      | ok ns =>
        exact ⟨e0, by simp [RAction.exec, hst, h, bind, Except.bind, Except.mapError]⟩
    | removeObject p =>
      simp only [storeSideEffectResult] at h
      cases hst : s.remove_object p with
      | error e =>
        exact ⟨.state e, by simp [RAction.exec, hst, bind, Except.bind, Except.mapError]⟩
      | ok ns =>
        exact ⟨e0, by simp [RAction.exec, hst, h, bind, Except.bind, Except.mapError]⟩
    | move src tgt =>
      simp only [storeSideEffectResult] at h
      cases hst : s.move_object src tgt with
      | error e =>
        exact ⟨.state e, by simp [RAction.exec, hst, bind, Except.bind, Except.mapError]⟩
      | ok ns =>
        exact ⟨e0, by simp [RAction.exec, hst, h, bind, Except.bind, Except.mapError]⟩
    | rebalance paths size count =>
      cases hout : rebalanceOutputs paths count with
      | error e =>
        exact ⟨e, by simp [RAction.exec, hout, bind, Except.bind]⟩
      | ok outs =>
        simp only [storeSideEffectResult, hout, bind, Except.bind] at h
        cases hrb : store.rebalance_objects paths outs (rebalanceTarget s paths size count) with
        | error e =>
          exact ⟨e, by simp [RAction.exec, hout, hrb, bind, Except.bind]⟩
        | ok sts =>
          rw [hrb] at h
          simp [pure, Except.pure] at h
  · intro e he
    simp [processActions, he]

/-- Closed witness for the store-failure theorem: removing `ppath0`
through the all-failing store on `state0`. -/
theorem action_store_failure_witness :
    (storeSideEffectResult (.removePartition ppath0) failStore state0
      = .error (.store (.io "fail")))
    ∧ ((∃ e, (RAction.removePartition ppath0).exec failStore state0 = .error e)
      ∧ (∀ e, (RAction.removePartition ppath0).exec failStore state0 = .error e →
          processActions failStore [.removePartition ppath0] state0 =
            ⟨(processActions failStore [] state0).state,
             (processActions failStore [] state0).passed,
             ((RAction.removePartition ppath0).key, e)
               :: (processActions failStore [] state0).failed,
             (processActions failStore [] state0).errors + 1⟩)) :=
  ⟨by decide,
   action_store_failure_preserves_state (.removePartition ppath0) failStore state0
     (.store (.io "fail")) (by decide) []⟩

/-! ## Claim C7 -/

/-- Claim C7: when the partition exists and its total size is below
1.5 x target_size, the RebalanceObjects job compiles to the empty
ActionTree, and the Runtime executed on that empty tree returns passed
= [], failed = [] and the initial state unchanged. -/
theorem rebalance_below_hysteresis_noop
    (store : Store) (s : State) (path : PartitionPath) (target : Nat) (ps : PartitionState)
    (hget : s.get_partition path = .ok ps)
    (hsize : 2 * ps.size < 3 * target) :
    RebalanceObjects.actions path target s = .ok ActionTree.new
    ∧ Runtime.execute store s ActionTree.new = ⟨s, [], []⟩ := by
  constructor
  · have hbelow : belowHysteresis ps.size target = true := by
      simp [belowHysteresis]
      exact hsize
    simp [RebalanceObjects.actions, hget, hbelow, bind, Except.bind, pure, Except.pure]
  · rfl

/-- Closed witness for the hysteresis theorem: `ppath0` in `state0` has
size 1024 and target 2048 (threshold 3072). -/
theorem rebalance_below_hysteresis_witness :
    (state0.get_partition ppath0 = .ok pstate0 ∧ 2 * pstate0.size < 3 * 2048)
    ∧ (RebalanceObjects.actions ppath0 2048 state0 = .ok ActionTree.new
      ∧ Runtime.execute failStore state0 ActionTree.new = ⟨state0, [], []⟩) :=
  ⟨⟨by decide, by decide⟩,
   rebalance_below_hysteresis_noop failStore state0 ppath0 2048 pstate0 (by decide) (by decide)⟩

/-! ## Claim C6 -/

/-- Claim C6 (behaviour at the failing input): combining two parquet
inputs of one 2-row batch each into 2 outputs with row target
floor(4/2) = 2 pulls a fresh writer when it advances to the second
input and drops the first writer without `close()`: output 0 holds 2
rows but never receives a parquet footer (`closed = false`), so it is
not a readable parquet file; the claimed totals and bounds over valid
outputs fail there. -/
theorem parquet_combine_unclosed_writer :
    pqCombine [⟨0, [2]⟩, ⟨0, [2]⟩] 2 2 =
      some [⟨0, 2, false⟩, ⟨0, 2, true⟩] := by
  decide

/-! ## Claim C8 -/

/-- Model of Rust `str::find(c)`: index of the first occurrence. -/
def findCharIdx (c : Char) : List Char → Option Nat
  | [] => none
  | x :: xs => if x = c then some 0 else (findCharIdx c xs).map (· + 1)

/-- The `k=v` segment parse inside `FileStore::list_partitions`
(src/src/store.rs lines 120-126): on `(find('='), ends_with('='))`,
the pair `(Some(idx), false)` yields `Partition::new(name[0..idx],
name[idx+1..])` and every other pair is `InvalidPartition`. -/
def parsePartitionSegment (name : String) : Except OsmError Partition :=
  match findCharIdx '=' name.toList with
  | some idx =>
    if name.toList.getLast? = some '=' then .error (.store (.invalidPartition name))
    else .ok ⟨[(⟨name.toList.take idx⟩, ⟨name.toList.drop (idx + 1)⟩)]⟩
  | none => .error (.store (.invalidPartition name))

theorem findCharIdx_append (c : Char) :
    ∀ (k v : List Char), c ∉ k → findCharIdx c (k ++ c :: v) = some k.length
  | [], v, _ => by simp [findCharIdx]
  | x :: xs, v, h => by
    have hx : ¬ x = c := by
      intro hh
      exact h (by simp [hh])
    simp [findCharIdx, hx,
      findCharIdx_append c xs v (fun hm => h (List.mem_cons_of_mem x hm))]

theorem findCharIdx_none (c : Char) :
    ∀ l : List Char, c ∉ l → findCharIdx c l = none
  | [], _ => rfl
  | x :: xs, h => by
    have hx : ¬ x = c := by
      intro hh
      exact h (by simp [hh])
    simp [findCharIdx, hx, findCharIdx_none c xs (fun hm => h (List.mem_cons_of_mem x hm))]

theorem listTakeLen (k rest : List Char) : (k ++ rest).take k.length = k := by
  induction k with
  | nil => rfl
  | cons x xs ih => simp [ih]

theorem listDropLenSucc (k : List Char) (c : Char) (v : List Char) :
    (k ++ c :: v).drop (k.length + 1) = v := by
  induction k with
  | nil => rfl
  | cons x xs ih => exact ih

theorem lastCons (x : Char) (l : List Char) (h : l ≠ []) :
    (x :: l).getLast? = l.getLast? := by
  cases l with
  | nil => exact absurd rfl h
  | cons a t => rfl

theorem lastOfAppendCons (k : List Char) (c : Char) (v : List Char) (hv : v ≠ []) :
    (k ++ c :: v).getLast? = v.getLast? := by
  induction k with
  | nil => exact lastCons c v hv
  | cons x xs ih =>
    rw [List.cons_append, lastCons x (xs ++ c :: v) (by simp)]
    exact ih

/-- Claim C8: a segment with no '=' or with a trailing '=' (empty
value) is rejected as InvalidPartition; otherwise the first '=' splits
key from value, so "year=2024" parses to Partition("year","2024") and
"a=b=c" parses to Partition("a","b=c"). -/
theorem partition_segment_parse_spec (k v : List Char) (name : String)
    (hk : '=' ∉ k) (hv : v ≠ []) (hlast : v.getLast? ≠ some '=') :
    parsePartitionSegment ⟨k ++ '=' :: v⟩ = .ok ⟨[(⟨k⟩, ⟨v⟩)]⟩
    ∧ ('=' ∉ name.toList → ∃ e, parsePartitionSegment name = .error e)
    ∧ (name.toList.getLast? = some '=' → ∃ e, parsePartitionSegment name = .error e)
    ∧ parsePartitionSegment "year=2024" = .ok ⟨[("year", "2024")]⟩
    ∧ parsePartitionSegment "a=b=c" = .ok ⟨[("a", "b=c")]⟩ := by
  refine ⟨?_, ?_, ?_, by decide, by decide⟩
  · have htl : (⟨k ++ '=' :: v⟩ : String).toList = k ++ '=' :: v := rfl
    have hfind := findCharIdx_append '=' k v hk
    have hlast2 : (k ++ '=' :: v).getLast? = v.getLast? := lastOfAppendCons k '=' v hv
    simp [parsePartitionSegment, htl, hfind, hlast2, hlast, listTakeLen, listDropLenSucc]
  · intro h
    have h' : findCharIdx '=' name.data = none := findCharIdx_none '=' name.toList h
    simp [parsePartitionSegment, h']
  · intro h
    have h' : name.data.getLast? = some '=' := h
    cases hf : findCharIdx '=' name.data with
    | none => simp [parsePartitionSegment, hf]
    | some idx => simp [parsePartitionSegment, hf, h']

/-- Closed witness for the segment parse theorem at "year=2024" with
value "2024" and the reject side at "year". -/
theorem partition_segment_parse_witness :
    ('=' ∉ "year".toList ∧ "2024".toList ≠ [] ∧ "2024".toList.getLast? ≠ some '=')
    ∧ (parsePartitionSegment ⟨"year".toList ++ '=' :: "2024".toList⟩
        = .ok ⟨[(⟨"year".toList⟩, ⟨"2024".toList⟩)]⟩
      ∧ ('=' ∉ "year".toList → ∃ e, parsePartitionSegment "year" = .error e)
      ∧ ("year".toList.getLast? = some '=' → ∃ e, parsePartitionSegment "year" = .error e)
      ∧ parsePartitionSegment "year=2024" = .ok ⟨[("year", "2024")]⟩
      ∧ parsePartitionSegment "a=b=c" = .ok ⟨[("a", "b=c")]⟩) :=
  ⟨⟨by decide, by decide, by decide⟩,
   partition_segment_parse_spec "year".toList "2024".toList "year"
     (by decide) (by decide) (by decide)⟩

/-! ## Claim C9 -/

/-- The format dispatch of `FileStore::read_object_state`
(src/src/store.rs lines 73-79): CSV and Parquet go to the respective
codec, an unknown extension is the cannot-infer error. -/
def read_object_format (path : ObjectPath) : Except OsmError Format :=
  match path.infer_format with
  | some f => .ok f
  | none => .error (.store (.cannotInferSchema path))

def opathBak : ObjectPath := ⟨ppath0, ⟨"a.csv.bak"⟩⟩

/-- Claim C9 counterexample: for the key "a.csv.bak" the substring
after the first dot is "csv.bak", so the claim demands a
cannot-infer-format failure; but `extension()` takes element 1 of
`split('.')`, which is "csv", and the read dispatches to the CSV codec
instead of failing. -/
theorem extension_multi_dot_counterexample :
    ObjectKey.infer_format ⟨"a.csv.bak"⟩ = some Format.csv
    ∧ read_object_format opathBak = .ok Format.csv := by
  refine ⟨by decide, by decide⟩

theorem splitCh_ne_nil (c : Char) : ∀ l : List Char, splitCh c l ≠ []
  | [] => by simp [splitCh]
  | x :: xs => by
    rw [splitCh]
    cases h : splitCh c xs with
    | nil => simp
    | cons y ys =>
      by_cases hx : x = c <;> simp [hx]

theorem splitCh_not_mem (c : Char) : ∀ l : List Char, c ∉ l → splitCh c l = [l]
  | [], _ => rfl
  | x :: xs, h => by
    have hx : ¬ x = c := by
      intro hh
      exact h (by simp [hh])
    rw [splitCh, splitCh_not_mem c xs (fun hm => h (List.mem_cons_of_mem x hm))]
    simp [hx]

theorem splitCh_cons_self (c : Char) (b : List Char) :
    splitCh c (c :: b) = [] :: splitCh c b := by
  rw [splitCh]
  cases h : splitCh c b with
  | nil => exact absurd h (splitCh_ne_nil c b)
  | cons y ys => simp

theorem splitCh_append (c : Char) :
    ∀ (a b : List Char), c ∉ a → splitCh c (a ++ c :: b) = a :: splitCh c b
  | [], b, _ => by
    rw [List.nil_append]
    exact splitCh_cons_self c b
  | x :: xs, b, h => by
    have hx : ¬ x = c := by
      intro hh
      exact h (by simp [hh])
    rw [List.cons_append, splitCh,
      splitCh_append c xs b (fun hm => h (List.mem_cons_of_mem x hm))]
    simp [hx]

theorem splitCh_first (c : Char) :
    ∀ l : List Char, (splitCh c l)[0]? = some (l.takeWhile (fun x => x != c))
  | [] => rfl
  | x :: xs => by
    rw [splitCh]
    cases h : splitCh c xs with
    | nil => exact absurd h (splitCh_ne_nil c xs)
    | cons y ys =>
      by_cases hx : x = c
      · subst hx
        simp [List.takeWhile_cons]
      · have hfirst := splitCh_first c xs
        rw [h] at hfirst
        simp only [List.getElem?_cons_zero, Option.some_inj] at hfirst
        simp [hx, List.takeWhile_cons, hfirst]

/-- Claim C9 (amended): the Format is selected by the component of the
key between the first and the second '.' (element 1 of splitting the
key on '.'), not by everything after the first '.': "csv" gives CSV,
"parquet" gives Parquet, and reading fails with the cannot-infer error
exactly when that component is neither; in particular "a.csv.bak" reads
as CSV instead of failing. -/
theorem extension_format_spec (a b k : List Char) (path : ObjectPath)
    (ha : '.' ∉ a) (hk : '.' ∉ k) :
    ObjectKey.extension ⟨⟨a ++ '.' :: b⟩⟩ = some (b.takeWhile (fun c => c != '.'))
    ∧ ObjectKey.extension ⟨⟨k⟩⟩ = none
    ∧ (read_object_format path = .error (.store (.cannotInferSchema path)) ↔
        (path.key.extension ≠ some "csv".toList
          ∧ path.key.extension ≠ some "parquet".toList))
    ∧ ObjectKey.infer_format ⟨"x.csv"⟩ = some .csv
    ∧ ObjectKey.infer_format ⟨"x.parquet"⟩ = some .parquet := by
  refine ⟨?_, ?_, ?_, by decide, by decide⟩
  · have htl : (⟨⟨a ++ '.' :: b⟩⟩ : ObjectKey).str.toList = a ++ '.' :: b := rfl
    rw [ObjectKey.extension, htl, splitCh_append '.' a b ha]
    simp [splitCh_first]
  · have htl : (⟨⟨k⟩⟩ : ObjectKey).str.toList = k := rfl
    rw [ObjectKey.extension, htl, splitCh_not_mem '.' k hk]
    rfl
  · rw [read_object_format, ObjectPath.infer_format, ObjectKey.infer_format]
    cases hext : path.key.extension with
    | none =>
      constructor
      · intro _
        exact ⟨by simp, by simp⟩
      · intro _
        rfl
    | some ext =>
      constructor
      · intro hmatch
        by_cases hcsv : ext = "csv".toList
        · subst hcsv
          simp at hmatch
        · by_cases hpq : ext = "parquet".toList
          · subst hpq
            simp [hcsv] at hmatch
          · exact ⟨fun hh => hcsv (Option.some_injective _ hh),
                   fun hh => hpq (Option.some_injective _ hh)⟩
      · rintro ⟨h1, h2⟩
        have hcsv : ¬ ext = "csv".toList := fun hh => h1 (by rw [hh])
        have hpq : ¬ ext = "parquet".toList := fun hh => h2 (by rw [hh])
        have hcsv' : ¬ ext = ['c', 's', 'v'] := hcsv
        have hpq' : ¬ ext = ['p', 'a', 'r', 'q', 'u', 'e', 't'] := hpq
        simp [hcsv', hpq']

/-- Closed witness for the extension theorem at "a", "csv.bak"-style
components and the key "noext". -/
theorem extension_format_witness :
    ('.' ∉ "a".toList ∧ '.' ∉ "noext".toList)
    ∧ (ObjectKey.extension ⟨⟨"a".toList ++ '.' :: "csv.bak".toList⟩⟩
        = some ("csv.bak".toList.takeWhile (fun c => c != '.'))
      ∧ ObjectKey.extension ⟨⟨"noext".toList⟩⟩ = none
      ∧ (read_object_format opathBak = .error (.store (.cannotInferSchema opathBak)) ↔
          (opathBak.key.extension ≠ some "csv".toList
            ∧ opathBak.key.extension ≠ some "parquet".toList))
      ∧ ObjectKey.infer_format ⟨"x.csv"⟩ = some .csv
      ∧ ObjectKey.infer_format ⟨"x.parquet"⟩ = some .parquet) :=
  ⟨⟨by decide, by decide⟩,
   extension_format_spec "a".toList "csv.bak".toList "noext".toList opathBak
     (by decide) (by decide)⟩

end Osm
